import Mathlib

/-!
Verification development for the html-to-image-js core.

The following definitions are a shallow embedding of the library's source
files (src/dataurl.js, src/mimes.js, src/util.js, src/clone-pseudos.js,
src/clone-node.js, src/embed-webfonts.js, src/embed-resources.js,
src/index.js).  Pure string computations are translated to functions on
`String`/`List Char`; JavaScript regular-expression behaviour is translated
operation by operation (lazy and greedy quantifier semantics, leftmost
match, `lastIndex` state); asynchronous code is translated to sequential
state passing (the cooperative single-threaded model means the awaited
steps run in program order); the network and `Math.random` are oracles
passed in as explicit parameters; JavaScript numbers appearing in the
claims are modelled by exact rationals.
-/

namespace HtmlToImage

/-! ## Shared JavaScript-truthiness helpers -/

/-- Truthiness of a JS string-or-undefined value: `undefined`/`null` and the
empty string are falsy. -/
def jsTruthyStr : Option String → Bool
  | none => false
  | some s => !s.isEmpty

/-- The apostrophe character (code point 39). -/
def singleQuote : Char := Char.ofNat 39

/-- Whitespace as matched by the JS regex class `\s` (the characters that
occur in the texts this development evaluates, plus NBSP). -/
def jsSpace (c : Char) : Bool :=
  decide (c = ' ' ∨ c = '\t' ∨ c = '\n' ∨ c = '\r' ∨ c = '\x0b' ∨ c = '\x0c' ∨ c = ' ')

/-! ## dataurl.js -/

/-- JS `url.search(/^(data:)/) !== -1`: the URL starts with `data:`. -/
def isDataUrl (url : String) : Bool := "data:".isPrefixOf url

/-- JS `makeDataUrl(content, mimeType)`. -/
def makeDataUrl (content mimeType : String) : String :=
  "data:" ++ mimeType ++ ";base64," ++ content

/-- JS `dataURL.split(/,/)[1]`: the text between the first and the second
comma, `undefined` (`none`) when the URL has no comma. -/
def getContentFromDataUrl (dataURL : String) : Option String :=
  ((dataURL.splitOn ",").drop 1).head?

/-- Helper for `stripQuery`: in a JS regex, `.` does not match a newline, so
`\?.*` consumes from the `?` only to the end of that line; the newline and
everything after it survive. -/
def dropToNewline : List Char → List Char
  | [] => []
  | c :: rest => if c = '\n' then c :: rest else dropToNewline rest

/-- JS `url.replace(/\?.*/, "")`: remove the first `?` together with the
rest of its line. -/
def stripQuery : List Char → List Char
  | [] => []
  | c :: rest => if c = '?' then dropToNewline rest else c :: stripQuery rest

/-- The first line of a character list (chars strictly before the first
newline) together with the remainder (beginning with that newline). -/
def breakLine : List Char → List Char × List Char
  | [] => ([], [])
  | c :: rest =>
    if c = '\n' then ([], c :: rest)
    else
      let p := breakLine rest
      (c :: p.1, p.2)

/-- Text of a line after its last `/`. -/
def afterLastSlash (l : List Char) : List Char :=
  (l.reverse.takeWhile (fun c => decide (c ≠ '/'))).reverse

/-- JS `key.replace(/.*\//, "")`: `.*` cannot cross a newline, and matching
is leftmost-greedy, so the first line that contains a `/` loses its prefix
up to and including its last `/`; every line before it is kept verbatim. -/
def dropThroughSlash : List Char → List Char
  | [] => []
  | c :: r =>
    if c = '\n' then c :: dropThroughSlash r
    else
      let line := (breakLine (c :: r)).1
      if line.contains '/' then afterLastSlash line ++ (breakLine (c :: r)).2
      else c :: dropThroughSlash r

/-- Substring occurrence test on character lists. -/
def containsSeq (pat : List Char) : List Char → Bool
  | [] => pat.isPrefixOf []
  | c :: r => pat.isPrefixOf (c :: r) || containsSeq pat r

/-- JS `/ttf|otf|eot|woff2?/i.test(key)`: a case-insensitive substring test
(the alternative `woff2?` succeeds exactly when `woff` occurs). -/
def fontKeyTest (l : List Char) : Bool :=
  let k := l.map Char.toLower
  containsSeq "ttf".toList k || containsSeq "otf".toList k ||
    containsSeq "eot".toList k || containsSeq "woff".toList k

/-- JS `getCacheKey(url, contentType, includeQueryParams)` from dataurl.js. -/
def getCacheKey (url : String) (contentType : Option String)
    (includeQueryParams : Bool) : String :=
  let key := if includeQueryParams then url.toList else stripQuery url.toList
  let key := if fontKeyTest key then dropThroughSlash key else key
  if jsTruthyStr contentType then
    "[" ++ contentType.getD "" ++ "]" ++ String.mk key
  else String.mk key

/-- Options consumed by `resourceToDataURL` (a slice of the user options
object).  `cacheBust` only rewrites the URL handed to `fetch`; it never
takes part in the cache key. -/
structure DataUrlOptions where
  includeQueryParams : Bool := false
  cacheBust : Bool := false
  imagePlaceholder : Option String := none

/-- Outcome of one `fetchAsDataURL` run: either the `FileReader` result
string together with the value of the response `Content-Type` header
(`none` for a missing header), or a thrown error (404, network failure,
reader or processing error) carrying its message. -/
inductive FetchOutcome where
  | success (readerResult : String) (headerContentType : Option String)
  | failure (message : String)

/-- JS `resourceToDataURL(resourceUrl, contentType, options)` as a pure
state-passing function: the process-wide `cache` object is threaded
explicitly (an association list, later bindings shadowed by earlier ones,
insertion at the front models overwriting), and the single `fetch` the call
can make is represented by the `outcome` oracle argument.  A `FileReader`
result always contains a comma; the `getD "undefined"` mirrors the JS
string coercion that would apply if it did not. -/
def resourceToDataURL (cache : List (String × String)) (resourceUrl : String)
    (contentType : Option String) (options : DataUrlOptions)
    (outcome : FetchOutcome) : String × List (String × String) :=
  let cacheKey := getCacheKey resourceUrl contentType options.includeQueryParams
  match cache.lookup cacheKey with
  | some hit => (hit, cache)
  | none =>
    match outcome with
    | .success readerResult headerContentType =>
      let ct :=
        if jsTruthyStr contentType then contentType.getD ""
        else headerContentType.getD ""
      let content := (getContentFromDataUrl readerResult).getD "undefined"
      let dataURL := makeDataUrl content ct
      (dataURL, (cacheKey, dataURL) :: cache)
    | .failure _ =>
      let dataURL := options.imagePlaceholder.getD ""
      (dataURL, (cacheKey, dataURL) :: cache)

/-! ## mimes.js -/

/-- The MIME table of mimes.js. -/
def mimesTable : List (String × String) :=
  [("woff", "application/font-woff"), ("woff2", "application/font-woff"),
   ("ttf", "application/font-truetype"), ("eot", "application/vnd.ms-fontobject"),
   ("png", "image/png"), ("jpg", "image/jpeg"), ("jpeg", "image/jpeg"),
   ("gif", "image/gif"), ("tiff", "image/tiff"), ("svg", "image/svg+xml"),
   ("webp", "image/webp")]

/-- JS `getExtension(url)`: the regex `\.([^./]*?)$` captures the text after
the last `.` provided no `/` follows it. -/
def getExtension (url : String) : String :=
  let rev := url.toList.reverse
  let ext := rev.takeWhile (fun c => decide (c ≠ '.' ∧ c ≠ '/'))
  match rev.drop ext.length with
  | '.' :: _ => String.mk ext.reverse
  | _ => ""

/-- JS `getMimeType(url)`: table lookup on the lower-cased extension, empty
string as the fallback. -/
def getMimeType (url : String) : String :=
  (mimesTable.lookup (getExtension url).toLower).getD ""

/-! ## util.js, uuid -/

/-- Digits used by JS `Number.prototype.toString(36)` (lower case). -/
def b36Digits : List Char := "0123456789abcdefghijklmnopqrstuvwxyz".toList

/-- One base-36 digit character. -/
def b36Char (n : ℕ) : Char := b36Digits.getD n '0'

/-- Base-36 representation of a natural number, most significant digit
first, as produced by `toString(36)` for a non-negative integer. -/
def rep36 (n : ℕ) : List Char :=
  if _h : n < 36 then [b36Char n] else rep36 (n / 36) ++ [b36Char (n % 36)]
termination_by n
decreasing_by
  exact Nat.div_lt_self (by omega) (by omega)

/-- JS `` `0000${x.toString(36)}`.slice(-4) ``: pad to the left with zeros
and keep the last four characters. -/
def pad4 (n : ℕ) : List Char :=
  let t := '0' :: '0' :: '0' :: '0' :: rep36 n
  t.drop (t.length - 4)

/-- Decimal digit characters. -/
def decDigitsList : List Char := "0123456789".toList

/-- One decimal digit character. -/
def decChar (n : ℕ) : Char := decDigitsList.getD n '0'

/-- Decimal representation of a natural number, as produced by the JS
template interpolation of a non-negative integer counter. -/
def repDec (n : ℕ) : List Char :=
  if _h : n < 10 then [decChar n] else repDec (n / 10) ++ [decChar (n % 10)]
termination_by n
decreasing_by
  exact Nat.div_lt_self (by omega) (by omega)

/-- The string the `uuid` closure of util.js returns on the call that
raises the counter to `counter`: the letter `u`, four base-36 characters
from `(Math.random() * 36 ** 4) << 0` (the oracle `randomAt`, reduced
modulo `36 ^ 4` exactly as the JS value is bounded by it), then the decimal
counter. -/
def uuidResult (randomAt : ℕ → ℕ) (counter : ℕ) : String :=
  String.mk ('u' :: (pad4 (randomAt counter % 36 ^ 4) ++ repDec counter))

/-- One call of the `uuid` closure: increment the captured counter, then
build the result from the new counter value. -/
def uuidStep (randomAt : ℕ → ℕ) (counter : ℕ) : String × ℕ :=
  (uuidResult randomAt (counter + 1), counter + 1)

/-! ## clone-pseudos.js -/

/-- One entry of a `CSSStyleDeclaration` as this code observes it: a
property name, its resolved value, and its priority string (empty or
`"important"`). -/
structure DeclProp where
  name : String
  value : String
  priority : String
deriving DecidableEq

/-- A `CSSStyleDeclaration` as observed by clone-pseudos.js: its serialized
`cssText` (empty on hosts that do not serialize computed pseudo styles) and
its property list in iteration order. -/
structure StyleDecl where
  cssText : String
  props : List DeclProp
deriving DecidableEq

/-- JS `style.getPropertyValue(name)`: the value of the named property,
empty string when absent. -/
def getPropertyValue (s : StyleDecl) (name : String) : String :=
  match s.props.find? (fun p => p.name == name) with
  | some p => p.value
  | none => ""

/-- JS `content.replace(/'|"/g, "")`: remove every apostrophe and double
quote. -/
def stripQuotes (s : String) : String :=
  String.mk (s.toList.filter (fun c => decide (c ≠ '"' ∧ c ≠ singleQuote)))

/-- JS `formatCSSText(style)`: the whole `cssText` followed by a rewritten
`content` declaration whose value has all quotes stripped and is re-wrapped
in apostrophes. -/
def formatCSSText (style : StyleDecl) : String :=
  style.cssText ++ " content: " ++ String.singleton singleQuote ++
    stripQuotes (getPropertyValue style "content") ++
    String.singleton singleQuote ++ ";"

/-- JS `formatCSSProperties(style)`: each property re-emitted verbatim as
`name: value !important;`, joined with single spaces. -/
def formatCSSProperties (style : StyleDecl) : String :=
  String.intercalate " "
    (style.props.map (fun p =>
      p.name ++ ": " ++ p.value ++
        (if p.priority ≠ "" then " !important" else "") ++ ";"))

/-- JS `getPseudoElementStyle(className, pseudo, style)`: the text of the
generated rule (the content of the created text node). -/
def getPseudoElementStyle (className pseudo : String) (style : StyleDecl) : String :=
  "." ++ className ++ ":" ++ pseudo ++ "\x7b" ++
    (if style.cssText ≠ "" then formatCSSText style else formatCSSProperties style) ++
    "\x7d"

/-! ## clone-node.js : the DOM model

A live node is modelled with exactly the observations clone-node.js makes
of it: its tag name, a kind discriminator for the specially handled element
classes, its attributes and live form values, its resolved computed style
(the value `window.getComputedStyle` would return, carried on the node
because the host style engine is an external collaborator), the resolved
styles of its two generated-content pseudo positions, its ordinary
children, its shadow-root children (`none` when it has no shadow root), a
slot's assigned nodes (`none` when the node has no `assignedNodes` method),
and an iframe's `contentDocument?.body` (`none` when inaccessible). -/

/-- One resolved style value; a value of the form `<number>px` is carried
as the exact rational number, anything else as its text. -/
inductive CSSVal where
  | px (q : ℚ)
  | str (s : String)
deriving DecidableEq

/-- One resolved computed-style property. -/
structure CompProp where
  name : String
  value : CSSVal
  priority : String
deriving DecidableEq

/-- A computed style as observed by `cloneCSSStyle`: its serialized
`cssText` (empty on hosts that do not serialize computed styles), its
`transformOrigin`, and the property list in iteration order. -/
structure CompStyle where
  cssText : String
  transformOrig : String
  props : List CompProp
deriving DecidableEq

/-- The inline style a pipeline step has written onto a clone: nothing yet,
a wholesale `cssText` assignment (plus the re-copied transform origin), or
a per-property copy. -/
inductive AppliedStyle where
  | noStyle
  | wholesale (cssText transformOrig : String)
  | perProp (props : List CompProp)
deriving DecidableEq

/-- Kind discriminator covering the element classes clone-node.js treats
specially.  `canvas` carries the value of `canvas.toDataURL()`; `video`
carries the frame snapshot data URL when `currentSrc` is set, plus the
poster URL; form controls carry their live value. -/
inductive NKind where
  | element
  | textNode
  | canvas (dataURL : String)
  | video (frameDataURL : Option String) (poster : String)
  | iframe
  | inputEl (liveValue : String)
  | textareaEl (liveValue : String)
  | selectEl (liveValue : String)
  | imgCreated (src : String)
deriving DecidableEq

/-- The non-recursive data of a node. -/
structure NodeData where
  tag : String
  kind : NKind
  textContent : String
  className : String
  classNameWritable : Bool
  dAttr : Option String
  idAttr : Option String
  xlinkHref : Option String
  valueAttr : Option String
  selectedAttr : Bool
  styleSrc : CompStyle
  pseudoBefore : StyleDecl
  pseudoAfter : StyleDecl
  styleApplied : AppliedStyle
deriving DecidableEq

/-- A node of the visual tree (see the comment above). -/
inductive VNode where
  | mk (data : NodeData) (children : List VNode)
      (shadow : Option (List VNode)) (assigned : Option (List VNode))
      (contentBody : Option VNode)

/-- Projection: the data of a node. -/
def VNode.data : VNode → NodeData
  | .mk d _ _ _ _ => d

/-- Projection: the child list of a node. -/
def VNode.children : VNode → List VNode
  | .mk _ cs _ _ _ => cs

/-- Replace the data of a node. -/
def VNode.setData : VNode → NodeData → VNode
  | .mk _ cs sh a cb, d => .mk d cs sh a cb

/-- JS `parent.appendChild(child)`. -/
def VNode.appendChild : VNode → VNode → VNode
  | .mk d cs sh a cb, c => .mk d (cs ++ [c]) sh a cb

/-- JS `isInstanceOfElement(node, Element)`: every modelled kind except a
text node is an element. -/
def isElementKind : NKind → Bool
  | .textNode => false
  | _ => true

/-- Kind test for `isInstanceOfElement(node, HTMLVideoElement)`. -/
def isVideoKind : NKind → Bool
  | .video _ _ => true
  | _ => false

/-- JS `isSlotElement(node)`: the node has a tag name (is an element) and
its upper-cased tag is `SLOT`. -/
def isSlotElement (d : NodeData) : Bool :=
  isElementKind d.kind && d.tag.toUpper == "SLOT"

/-- Default node data for elements the pipeline itself creates. -/
def mkNodeData (tag : String) (kind : NKind) : NodeData :=
  { tag := tag, kind := kind, textContent := "", className := "",
    classNameWritable := true, dAttr := none, idAttr := none,
    xlinkHref := none, valueAttr := none, selectedAttr := false,
    styleSrc := { cssText := "", transformOrig := "", props := [] },
    pseudoBefore := { cssText := "", props := [] },
    pseudoAfter := { cssText := "", props := [] },
    styleApplied := .noStyle }

/-- A free-standing text node holding the given text. -/
def textVNode (s : String) : VNode :=
  .mk { mkNodeData "#text" .textNode with textContent := s } [] none none none

/-- A `<style>` element wrapping one text node, as built by
`document.createElement("style")` plus `appendChild(createTextNode(...))`. -/
def styleElementNode (ruleText : String) : VNode :=
  .mk (mkNodeData "style" .element) [textVNode ruleText] none none none

/-- An `<img>` element as produced by `createImage(url)` of util.js. -/
def createImageNode (url : String) : VNode :=
  .mk (mkNodeData "img" (.imgCreated url)) [] none none none

/-- JS `node.cloneNode(false)`: a fresh node with the same data (tag,
attributes, text data, inline style) and no children, no shadow root, no
assigned nodes, no content document. -/
def shallowCloneNode (n : VNode) : VNode := .mk n.data [] none none none

/-- The recognized user options that reach clone-node.js and dataurl.js. -/
structure CloneOptions where
  filter : Option (VNode → Bool) := none
  includeQueryParams : Bool := false
  cacheBust : Bool := false
  imagePlaceholder : Option String := none

/-- The dataurl.js slice of the options. -/
def CloneOptions.dataOpts (o : CloneOptions) : DataUrlOptions :=
  { includeQueryParams := o.includeQueryParams, cacheBust := o.cacheBust,
    imagePlaceholder := o.imagePlaceholder }

/-- The ambient host environment of one conversion: the options, the
network oracle, the `Math.random` oracle indexed by the uuid counter, and
the host document's symbol definitions as found by
`document.querySelector` (selector text mapped to the defining node). -/
structure CloneEnv where
  opts : CloneOptions
  fetchOracle : String → FetchOutcome
  uuidRandom : ℕ → ℕ
  docDefs : List (String × VNode)

/-- The mutable process state threaded through a conversion: the uuid
counter of util.js and the resource cache of dataurl.js. -/
structure CloneState where
  counter : ℕ
  cache : List (String × String)

/-- The filter gate of `cloneNode`:
`!isRoot && options.filter && !options.filter(node)`. -/
def rejectsNode (opts : CloneOptions) (isRoot : Bool) (n : VNode) : Bool :=
  !isRoot && (match opts.filter with
    | some f => !(f n)
    | none => false)

/-- The three per-property adjustments of `cloneCSSStyle`, applied in
source order: a pixel font size is floored and reduced by 0.1; an iframe's
resolved `display: inline` becomes `block`; a `d` property is rewritten to
`path(<d attribute>)` when the clone carries a non-empty `d` attribute. -/
def adjustStyleProp (nativeIsIFrame : Bool) (cloneDAttr : Option String)
    (p : CompProp) : CompProp :=
  let v1 := if p.name = "font-size" then
      match p.value with
      | .px q => CSSVal.px ((⌊q⌋ : ℚ) - 1/10)
      | v => v
    else p.value
  let v2 := if nativeIsIFrame ∧ p.name = "display" ∧ v1 = .str "inline" then
      CSSVal.str "block"
    else v1
  let v3 := if p.name = "d" ∧ jsTruthyStr cloneDAttr then
      CSSVal.str ("path(" ++ cloneDAttr.getD "" ++ ")")
    else v2
  { p with value := v3 }

/-- JS `cloneCSSStyle(nativeNode, clonedNode)`: a no-op when the clone has
no style object (text nodes); otherwise either a wholesale `cssText`
assignment plus the transform origin, or a per-property copy through
`adjustStyleProp`. -/
def cloneCSSStyle (native clone : VNode) : VNode :=
  if isElementKind clone.data.kind then
    let src := native.data.styleSrc
    let applied :=
      if src.cssText ≠ "" then AppliedStyle.wholesale src.cssText src.transformOrig
      else AppliedStyle.perProp
        (src.props.map (adjustStyleProp (native.data.kind = .iframe) clone.data.dAttr))
    clone.setData { clone.data with styleApplied := applied }
  else clone

/-- JS `clonePseudoElement(nativeNode, clonedNode, pseudo)`: nothing
happens when the resolved `content` is empty or `none`; otherwise a fresh
uuid class is generated (the counter advances even when the class-name
assignment then throws), appended to the clone's class attribute, and a
`<style>` child holding the generated rule is appended. -/
def clonePseudoElement (randomAt : ℕ → ℕ) (counter : ℕ) (pseudoStyle : StyleDecl)
    (pseudo : String) (clone : VNode) : VNode × ℕ :=
  let content := getPropertyValue pseudoStyle "content"
  if content = "" ∨ content = "none" then (clone, counter)
  else
    let counter1 := counter + 1
    let className := uuidResult randomAt counter1
    if clone.data.classNameWritable then
      let clone1 := clone.setData
        { clone.data with className := clone.data.className ++ " " ++ className }
      clone1.appendChild (styleElementNode (getPseudoElementStyle className pseudo pseudoStyle))
        |> (·, counter1)
    else (clone, counter1)

/-- JS `clonePseudoElements(nativeNode, clonedNode)`: `:before` then
`:after`. -/
def clonePseudoElements (randomAt : ℕ → ℕ) (counter : ℕ) (native clone : VNode) :
    VNode × ℕ :=
  let r1 := clonePseudoElement randomAt counter native.data.pseudoBefore ":before" clone
  clonePseudoElement randomAt r1.2 native.data.pseudoAfter ":after" r1.1

/-- JS `cloneInputValue(nativeNode, clonedNode)`: a textarea's live value
replaces the clone's content (`innerHTML = value`, modelled as a single
text child, none for the empty value); an input's live value is written as
the clone's `value` attribute. -/
def cloneInputValue (native clone : VNode) : VNode :=
  let clone1 := match native.data.kind with
    | .textareaEl v =>
      match clone with
      | .mk d _ sh a cb => VNode.mk d (if v = "" then [] else [textVNode v]) sh a cb
    | _ => clone
  match native.data.kind with
  | .inputEl v => clone1.setData { clone1.data with valueAttr := some v }
  | _ => clone1

/-- Helper for `cloneSelectValue`: mark the first element child whose
`value` attribute equals the live value (`getAttribute` on a child without
the attribute yields `null`, which never equals a string). -/
def setSelectedFirst (v : String) : List VNode → List VNode
  | [] => []
  | c :: rest =>
    if isElementKind c.data.kind ∧ c.data.valueAttr = some v then
      c.setData { c.data with selectedAttr := true } :: rest
    else c :: setSelectedFirst v rest

/-- JS `cloneSelectValue(nativeNode, clonedNode)`. -/
def cloneSelectValue (native clone : VNode) : VNode :=
  match native.data.kind with
  | .selectEl v =>
    (match clone with
     | .mk d cs sh a cb => VNode.mk d (setSelectedFirst v cs) sh a cb)
  | _ => clone

/-- JS `decorate(nativeNode, clonedNode)`: only element clones are
decorated; styles, pseudo elements, input values and select values are
copied in that order.  The uuid counter consumed by the pseudo step is
threaded through. -/
def decorate (randomAt : ℕ → ℕ) (counter : ℕ) (native clone : VNode) : VNode × ℕ :=
  if isElementKind clone.data.kind then
    let c1 := cloneCSSStyle native clone
    let r2 := clonePseudoElements randomAt counter native c1
    let c3 := cloneInputValue native r2.1
    (cloneSelectValue native c3, r2.2)
  else (clone, counter)

/-- JS `clone.querySelectorAll("use")`: every descendant tagged `use`, in
document order (the root itself is not a descendant). -/
def collectUsesList : List VNode → List VNode
  | [] => []
  | .mk d cs sh a cb :: rest =>
    (if d.tag = "use" then [VNode.mk d cs sh a cb] else []) ++
      collectUsesList cs ++ collectUsesList rest

/-- Does the selector `sel` (of the fragment form `#id`) match the node
data? -/
def matchesIdSel (sel : String) (d : NodeData) : Bool :=
  match d.idAttr with
  | some i => sel == "#" ++ i
  | none => false

/-- JS `clone.querySelector(id)` used as an existence test over the
descendants of the clone. -/
def anyDescMatches (sel : String) : List VNode → Bool
  | [] => false
  | .mk d cs _ _ _ :: rest =>
    matchesIdSel sel d || anyDescMatches sel cs || anyDescMatches sel rest

/-- The hidden `<svg><defs>…</defs></svg>` container `ensureSVGSymbols`
appends when definitions were collected. -/
def svgContainer (defNodes : List VNode) : VNode :=
  let defsEl := VNode.mk (mkNodeData "defs" .element) defNodes none none none
  let hiddenStyle : List CompProp :=
    [⟨"position", .str "absolute", ""⟩, ⟨"width", .str "0", ""⟩,
     ⟨"height", .str "0", ""⟩, ⟨"overflow", .str "hidden", ""⟩,
     ⟨"display", .str "none", ""⟩]
  VNode.mk
    { mkNodeData "svg" .element with styleApplied := AppliedStyle.perProp hiddenStyle }
    [defsEl] none none none

/-- Helper fact for the termination argument of the cloner: removing a
present key strictly shrinks the definition table. -/
def length_filter_lt_of_lookup {α : Type} [BEq α] [LawfulBEq α]
    (l : List (α × VNode)) (k : α) (v : VNode) (h : l.lookup k = some v) :
    (l.filter (fun p => p.1 != k)).length < l.length := by
  induction l with
  | nil => simp [List.lookup] at h
  | cons hd tl ih =>
    by_cases hk : k == hd.1
    · have hne : (hd.1 != k) = false := by
        have hkk : k = hd.1 := beq_iff_eq.mp hk
        simp [bne, hkk]
      simp only [List.filter_cons, hne, if_neg Bool.false_ne_true]
      calc (tl.filter (fun p => p.1 != k)).length
          ≤ tl.length := List.length_filter_le _ tl
        _ < (hd :: tl).length := by simp
    · have hlk : (hd :: tl).lookup k = tl.lookup k := by
        simp [List.lookup, hk]
      rw [hlk] at h
      by_cases hh : (hd.1 != k) = true
      · simp only [List.filter_cons, hh, if_pos rfl]
        simpa using Nat.succ_lt_succ (ih h)
      · simp only [List.filter_cons, hh]
        calc (tl.filter (fun p => p.1 != k)).length
            ≤ tl.length := List.length_filter_le _ tl
          _ < (hd :: tl).length := by simp

/-- The child list `cloneChildren` recurses into: a slot's assigned nodes
(when the node has an `assignedNodes` method), an iframe's content-document
body children (when accessible), else the shadow-root children when a
shadow root is attached, else the ordinary children. -/
def childSource : VNode → List VNode
  | .mk d cs sh a cb =>
    if isSlotElement d ∧ a.isSome then a.getD []
    else if d.kind = .iframe ∧ cb.isSome then
      (match cb with
       | some b => b.children
       | none => [])
    else
      match sh with
      | some shl => shl
      | none => cs

/-- Size fact: every node has positive size. -/
def vnode_sizeOf_pos (n : VNode) : 0 < sizeOf n := by
  cases n; simp_arith

/-- Size fact: the source child list is smaller than the node itself. -/
def sizeOf_childSource_lt (n : VNode) : sizeOf (childSource n) < sizeOf n := by
  cases n with
  | mk d cs sh a cb =>
    simp only [childSource]
    split
    · cases a with
      | none => simp_arith
      | some l =>
        cases sh with
        | none => cases cb <;> simp_arith
        | some shl => cases cb <;> simp_arith
    · split
      · cases cb with
        | none => simp_arith
        | some b =>
          cases b with
          | mk bd bcs bsh ba bcb =>
            simp only [VNode.children]
            cases sh <;> cases a <;> simp_arith
      · cases sh with
        | none => cases a <;> cases cb <;> simp_arith
        | some shl => cases a <;> cases cb <;> simp_arith

mutual

/-- JS `cloneNode(node, options, isRoot)`: the filter gate, then the
kind-specific shallow clone, sequential child cloning, decoration, and SVG
symbol resolution, all threading the process state. -/
def cloneNode (env : CloneEnv) (st : CloneState) (node : VNode) (isRoot : Bool) :
    Option VNode × CloneState :=
  if rejectsNode env.opts isRoot node then (none, st)
  else
    let r1 := cloneSingleNode env st node
    let r2 := cloneChildren env r1.2 node r1.1
    let r3 := decorate env.uuidRandom r2.2.counter node r2.1
    let r4 := ensureSVGSymbols env { r2.2 with counter := r3.2 } r3.1
    (some r4.1, r4.2)
termination_by (env.docDefs.length, sizeOf node + 1, 3)
decreasing_by
  · apply Prod.Lex.right
    apply Prod.Lex.right
    omega
  · apply Prod.Lex.right
    apply Prod.Lex.right
    omega
  · apply Prod.Lex.right
    apply Prod.Lex.left
    have := vnode_sizeOf_pos node
    omega

/-- JS `cloneSingleNode(node, options)`: canvas, video and iframe elements
are special-cased; everything else is a shallow structural copy.  The
iframe branch recursively clones the embedded body as a new root with an
empty options object, falling back to a shallow copy when the body is
inaccessible. -/
def cloneSingleNode (env : CloneEnv) (st : CloneState) (n : VNode) :
    VNode × CloneState :=
  match n with
  | .mk d cs sh a cb =>
    match d.kind with
    | .canvas dataURL =>
      if dataURL = "data:," then (shallowCloneNode (.mk d cs sh a cb), st)
      else (createImageNode dataURL, st)
    | .video frame poster =>
      match frame with
      | some frameURL => (createImageNode frameURL, st)
      | none =>
        let r := resourceToDataURL st.cache poster (some (getMimeType poster))
          env.opts.dataOpts (env.fetchOracle poster)
        (createImageNode r.1, { st with cache := r.2 })
    | .iframe =>
      match cb with
      | some body =>
        match cloneNode { env with opts := {} } st body true with
        | (some c, st') => (c, st')
        | (none, st') => (shallowCloneNode (.mk d cs sh a cb), st')
      | none => (shallowCloneNode (.mk d cs sh a cb), st)
    | _ => (shallowCloneNode (.mk d cs sh a cb), st)
termination_by (env.docDefs.length, sizeOf n + 1, 2)
decreasing_by
  apply Prod.Lex.right
  apply Prod.Lex.left
  simp_arith

/-- JS `cloneChildren(nativeNode, clonedNode, options)`: child recursion is
skipped for videos and childless sources; otherwise the children are cloned
strictly sequentially and the non-null clones appended in order. -/
def cloneChildren (env : CloneEnv) (st : CloneState) (native cloned : VNode) :
    VNode × CloneState :=
  let children := childSource native
  if children.length = 0 ∨ isVideoKind native.data.kind then (cloned, st)
  else cloneList env st children cloned
termination_by (env.docDefs.length, sizeOf native + 1, 1)
decreasing_by
  apply Prod.Lex.right
  apply Prod.Lex.left
  have := sizeOf_childSource_lt native
  omega

/-- The sequential `reduce` chain over the source children: each child is
cloned to completion before the next starts, and `null` results (filtered
children) are skipped without leaving a gap. -/
def cloneList (env : CloneEnv) (st : CloneState) (cs : List VNode) (cloned : VNode) :
    VNode × CloneState :=
  match cs with
  | [] => (cloned, st)
  | c :: rest =>
    let r := cloneNode env st c false
    let cloned' := match r.1 with
      | some cc => cloned.appendChild cc
      | none => cloned
    cloneList env r.2 rest cloned'
termination_by (env.docDefs.length, sizeOf cs + 1, 3)
decreasing_by
  · apply Prod.Lex.right
    apply Prod.Lex.left
    simp_arith
  · apply Prod.Lex.right
    apply Prod.Lex.left
    simp_arith

/-- JS `ensureSVGSymbols(clone, options)`: find `<use>` descendants, clone
the referenced document definitions that are missing from the clone
(deduplicated by identifier), and append them inside a hidden container.
The model prevents a definition from re-entering its own lookup (the live
DOM counterpart would loop forever on such a cycle). -/
def ensureSVGSymbols (env : CloneEnv) (st : CloneState) (clone : VNode) :
    VNode × CloneState :=
  let uses := if isElementKind clone.data.kind then collectUsesList clone.children else []
  if uses.isEmpty then (clone, st)
  else
    let r := gatherDefs env st clone uses []
    if r.1.isEmpty then (clone, r.2)
    else (clone.appendChild (svgContainer (r.1.map (fun p => p.2))), r.2)
termination_by (env.docDefs.length, 1, 0)
decreasing_by
  apply Prod.Lex.right
  apply Prod.Lex.left
  omega

/-- The `uses` loop of `ensureSVGSymbols`: for each `use` with a truthy
`xlink:href`, when the referenced definition is absent from the clone,
present in the document and not yet processed, clone it as a new root and
record it under its identifier. -/
def gatherDefs (env : CloneEnv) (st : CloneState) (clone : VNode)
    (uses : List VNode) (acc : List (String × VNode)) :
    List (String × VNode) × CloneState :=
  match uses with
  | [] => (acc, st)
  | u :: rest =>
    if jsTruthyStr u.data.xlinkHref then
      let id := u.data.xlinkHref.getD ""
      let exist := anyDescMatches id clone.children
      match hdef : env.docDefs.lookup id with
      | some defNode =>
        if exist = false ∧ (acc.lookup id).isNone then
          let r := cloneNode
            { env with docDefs := env.docDefs.filter (fun p => p.1 != id) }
            st defNode true
          match r.1 with
          | some c => gatherDefs env r.2 clone rest (acc ++ [(id, c)])
          | none => gatherDefs env r.2 clone rest acc
        else gatherDefs env st clone rest acc
      | none => gatherDefs env st clone rest acc
    else gatherDefs env st clone rest acc
termination_by (env.docDefs.length, 0, sizeOf uses)
decreasing_by
  · apply Prod.Lex.left
    exact length_filter_lt_of_lookup env.docDefs id defNode hdef
  · apply Prod.Lex.right
    apply Prod.Lex.right
    simp_arith
  · apply Prod.Lex.right
    apply Prod.Lex.right
    simp_arith
  · apply Prod.Lex.right
    apply Prod.Lex.right
    simp_arith
  · apply Prod.Lex.right
    apply Prod.Lex.right
    simp_arith
  · apply Prod.Lex.right
    apply Prod.Lex.right
    simp_arith

end

/-! ## embed-webfonts.js : the font-embedding stage of the orchestrator -/

/-- A JS value that is either `undefined`, `null`, or a string — the three
states the `fontEmbedCSS` option can be in. -/
inductive JSStrVal where
  | undef
  | null
  | str (s : String)
deriving DecidableEq

/-- Truthiness of such a value. -/
def jsTruthyVal : JSStrVal → Bool
  | .str s => !s.isEmpty
  | _ => false

/-- The options `embedWebFonts` consults. -/
structure FontEmbedOptions where
  fontEmbedCSS : JSStrVal := .undef
  skipFonts : Bool := false

/-- The `cssText` computed by `embedWebFonts`:
`options.fontEmbedCSS !== null ? options.fontEmbedCSS : options.skipFonts ?
null : await getWebFontCSS(clonedNode, options)`.  `getWebFontCSS` performs
web-font discovery against the host document; its result is the oracle
argument `webFontCSS`, which is consulted only in the discovery branch. -/
def embedWebFontsCssText (o : FontEmbedOptions) (webFontCSS : String) : JSStrVal :=
  if o.fontEmbedCSS ≠ JSStrVal.null then o.fontEmbedCSS
  else if o.skipFonts then JSStrVal.null
  else JSStrVal.str webFontCSS

/-- JS `embedWebFonts(clonedNode, options)`: when the computed `cssText` is
truthy, a `<style>` node holding it becomes the clone's first child
(`insertBefore` the first child, or `appendChild` on an empty clone — both
place it first); otherwise the clone is left untouched. -/
def embedWebFonts (clonedNode : VNode) (o : FontEmbedOptions) (webFontCSS : String) :
    VNode :=
  let cssText := embedWebFontsCssText o webFontCSS
  if jsTruthyVal cssText then
    let styleNode := styleElementNode
      (match cssText with
       | .str s => s
       | _ => "")
    match clonedNode with
    | .mk d cs sh a cb => VNode.mk d (styleNode :: cs) sh a cb
  else clonedNode

/-! ## embed-webfonts.js : parseCSS

`parseCSS` is driven by four JS regexes.  Each one is translated to an
explicit backtracking matcher with exactly the engine's strategy: leftmost
match; lazy quantifiers extend only when the continuation fails; greedy
quantifiers give back only when the continuation fails; `.` never crosses a
newline while `[\s\S]` does.  A matcher takes the text at a candidate
position and returns the matched length. -/

/-- The tail `…}\s*?)}` shared by the keyframes regex and the `@media`
alternative: lazy `\s*?`, then the closing brace. -/
def spacesThenBrace : List Char → Option ℕ
  | [] => none
  | c :: r => if c = '}' then some 1 else if jsSpace c then (spacesThenBrace r).map (· + 1) else none

/-- The block interior `[\s\S]*?}\s*?}`: a lazy body, one closing brace,
lazy whitespace, and the final closing brace. -/
def braceInner : List Char → Option ℕ
  | [] => none
  | c :: r =>
    (if c = '}' then (spacesThenBrace r).map (· + 1) else none).orElse
      (fun _ => (braceInner r).map (· + 1))

/-- The suffix `[\s\S]*?{` followed by a block interior: lazy scan to an
opening brace whose interior completes the block. -/
def lazyToBraceBlock : List Char → Option ℕ
  | [] => none
  | c :: r =>
    (if c = '{' then (braceInner r).map (· + 1) else none).orElse
      (fun _ => (lazyToBraceBlock r).map (· + 1))

/-- After the `@` of the keyframes regex `@.*?keyframes [\s\S]*?{…}`: the
lazy dot cannot cross a newline; at each position try the literal
`keyframes ` and its continuation before extending. -/
def kfAfterAt : List Char → Option ℕ
  | [] => none
  | c :: r =>
    (if "keyframes ".toList.isPrefixOf (c :: r) then
        (lazyToBraceBlock (r.drop 9)).map (· + 10)
      else none).orElse
      (fun _ => if c = '\n' then none else (kfAfterAt r).map (· + 1))

/-- A match of the keyframes regex
`((@.*?keyframes [\s\S]*?){([\s\S]*?}\s*?)})` at the current position. -/
def kfMatch : List Char → Option ℕ
  | '@' :: r => (kfAfterAt r).map (· + 1)
  | _ => none

/-- Leftmost match of a matcher: scan positions left to right, returning
the start offset and the matched length. -/
def regexFind (m : List Char → Option ℕ) : List Char → Option (ℕ × ℕ)
  | [] =>
    match m [] with
    | some n => some (0, n)
    | none => none
  | c :: r =>
    match m (c :: r) with
    | some n => some (0, n)
    | none => (regexFind m r).map (fun p => (p.1 + 1, p.2))

/-- The `exec` loop plus the subsequent `replace(keyframesRegex, "")`: both
scan the same non-overlapping leftmost matches, so one pass collects the
matched fragments and the remaining text.  Fuelled by the text length
(every match consumes at least one character). -/
def kfScan : ℕ → List Char → List (List Char) × List Char
  | 0, l => ([], l)
  | fuel + 1, l =>
    match regexFind kfMatch l with
    | none => ([], l)
    | some (s, n) =>
      let rest := kfScan fuel (l.drop (s + n))
      ((l.drop s).take n :: rest.1, l.take s ++ rest.2)

/-- The comment terminator search for `\/\*[\s\S]*?\*\/`: lazy body, then
the literal `*/`, returning the length from the body start. -/
def commentEnd : List Char → Option ℕ
  | [] => none
  | c :: r =>
    if c = '*' ∧ r.head? = some '/' then some 2
    else (commentEnd r).map (· + 1)

/-- JS `source.replace(/(\/\*[\s\S]*?\*\/)/gi, "")`: remove every comment
block (an unterminated `/*` never matches and survives). -/
def stripComments : ℕ → List Char → List Char
  | 0, l => l
  | _, [] => []
  | fuel + 1, c :: r =>
    if c = '/' ∧ r.head? = some '*' then
      match commentEnd (r.drop 1) with
      | some n => stripComments fuel ((r.drop 1).drop n)
      | none => c :: stripComments fuel r
    else c :: stripComments fuel r

/-- The lazy scan `[\s\S]*?;` ending an import directive. -/
def lazyToSemi : List Char → Option ℕ
  | [] => none
  | c :: r => if c = ';' then some 1 else (lazyToSemi r).map (· + 1)

/-- After `url(` inside the import regex: greedy `[^)]*`, the closing
parenthesis, then the lazy scan to the semicolon. -/
def impUrlBody (l : List Char) : Option ℕ :=
  let k := (l.takeWhile (fun c => decide (c ≠ ')'))).length
  match l.drop k with
  | ')' :: r2 => (lazyToSemi r2).map (fun m => k + 1 + m)
  | _ => none

/-- The lazy scan `[\s\S]*?url\(…` of the import regex. -/
def impToUrl : List Char → Option ℕ
  | [] => none
  | c :: r =>
    (if "url(".toList.isPrefixOf (c :: r) then (impUrlBody (r.drop 3)).map (· + 4)
      else none).orElse
      (fun _ => (impToUrl r).map (· + 1))

/-- A match of `/@import[\s\S]*?url\([^)]*\)[\s\S]*?;/gi` at the current
position. -/
def impMatch (l : List Char) : Option ℕ :=
  if "@import".toList.isPrefixOf l then (impToUrl (l.drop 7)).map (· + 7) else none

/-- The interior `([\s\S]*?)}` of the generic-rule alternative: lazy scan
to the first closing brace. -/
def lazyToBrace : List Char → Option ℕ
  | [] => none
  | c :: r => if c = '}' then some 1 else (lazyToBrace r).map (· + 1)

/-- The generic-rule alternative `(([\s\S]*?){([\s\S]*?)})`: lazy scan to
an opening brace, then lazy scan to the next closing brace. -/
def genRuleAlt : List Char → Option ℕ
  | [] => none
  | c :: r =>
    (if c = '{' then (lazyToBrace r).map (· + 1) else none).orElse
      (fun _ => (genRuleAlt r).map (· + 1))

/-- The `@media[\s\S]*?{…}` tail of the media alternative. -/
def mediaTail : List Char → Option ℕ
  | [] => none
  | c :: r =>
    (if c = '{' then (braceInner r).map (· + 1) else none).orElse
      (fun _ => (mediaTail r).map (· + 1))

/-- The `\s*?@media…` part: lazy whitespace, then the literal `@media` and
its tail. -/
def mediaAfterSpaces : List Char → Option ℕ
  | [] => none
  | c :: r =>
    (if "@media".toList.isPrefixOf (c :: r) then (mediaTail (r.drop 5)).map (· + 6)
      else none).orElse
      (fun _ => if jsSpace c then (mediaAfterSpaces r).map (· + 1) else none)

/-- The comment interior of the media alternative: lazy body, `*/`, then
the rest of the alternative. -/
def mediaCommentEnd : List Char → Option ℕ
  | [] => none
  | c :: r =>
    (if c = '*' ∧ r.head? = some '/' then (mediaAfterSpaces (r.drop 1)).map (· + 2)
      else none).orElse
      (fun _ => (mediaCommentEnd r).map (· + 1))

/-- The media alternative
`((\s*?(?:\/\*[\s\S]*?\*\/)?\s*?@media[\s\S]*?){([\s\S]*?)}\s*?})`: lazy
leading whitespace, an optional (greedily attempted) comment, more lazy
whitespace, the literal `@media`, and the braced block. -/
def mediaAlt : List Char → Option ℕ
  | [] => none
  | c :: r =>
    (if c = '/' ∧ r.head? = some '*' then (mediaCommentEnd (r.drop 1)).map (· + 2)
      else none).orElse
      (fun _ => (mediaAfterSpaces (c :: r)).orElse
        (fun _ => if jsSpace c then (mediaAlt r).map (· + 1) else none))

/-- The combined rule regex: the media alternative, else the generic-rule
alternative. -/
def unifiedMatch (l : List Char) : Option ℕ :=
  (mediaAlt l).orElse (fun _ => genRuleAlt l)

/-- The alternating import/rule loop of `parseCSS`: each iteration first
searches the remaining text for an import directive anywhere ahead, else
for a combined-rule match, pushes the match and continues after it (the two
regex objects share their advancing `lastIndex`). -/
def ruleScan : ℕ → List Char → List (List Char)
  | 0, _ => []
  | fuel + 1, l =>
    match regexFind impMatch l with
    | some (s, n) => (l.drop s).take n :: ruleScan fuel (l.drop (s + n))
    | none =>
      match regexFind unifiedMatch l with
      | some (s, n) => (l.drop s).take n :: ruleScan fuel (l.drop (s + n))
      | none => []

/-- JS `parseCSS(source)`: `null`/`undefined` gives no fragments; otherwise
strip comments, extract every keyframes block (removing it from the working
buffer), then collect import directives and generic rule blocks. -/
def parseCSS (source : Option String) : List String :=
  match source with
  | none => []
  | some src =>
    let noComments := stripComments src.toList.length src.toList
    let kf := kfScan noComments.length noComments
    let rest := ruleScan kf.2.length kf.2
    (kf.1 ++ rest).map (fun cs => String.mk cs)

/-! ## embed-resources.js : filterPreferredFontFormat

`FONT_SRC_REGEX` and `URL_WITH_FORMAT_REGEX` are module-level `g`-flagged
regexes.  `URL_WITH_FORMAT_REGEX` is driven by `exec`, whose `lastIndex`
persists on the regex object across callback invocations and across calls
of the function; it is threaded below as explicit state. -/

/-- Greedy run of non-`)` characters. -/
def takeNonParen (l : List Char) : ℕ :=
  (l.takeWhile (fun c => decide (c ≠ ')'))).length

/-- One repetition `url\([^)]+\)\s*format\([^)]+\)[,;]\s*` of
`FONT_SRC_REGEX`. -/
def fontSrcPair (l : List Char) : Option ℕ :=
  if "url(".toList.isPrefixOf l then
    let l1 := l.drop 4
    let k := takeNonParen l1
    if k = 0 then none
    else
      match l1.drop k with
      | ')' :: l2 =>
        let s := (l2.takeWhile jsSpace).length
        let l3 := l2.drop s
        if "format(".toList.isPrefixOf l3 then
          let l4 := l3.drop 7
          let k2 := takeNonParen l4
          if k2 = 0 then none
          else
            match l4.drop k2 with
            | ')' :: l5 =>
              match l5 with
              | c :: l6 =>
                if c = ',' ∨ c = ';' then
                  some (4 + k + 1 + s + 7 + k2 + 1 + 1 + (l6.takeWhile jsSpace).length)
                else none
              | [] => none
            | _ => none
        else none
      | _ => none
  else none

/-- The greedy `(?:…)+` of `FONT_SRC_REGEX` (nothing follows it in the
regex, so it never gives repetitions back). -/
def fontSrcPairs : ℕ → List Char → Option ℕ
  | 0, l => fontSrcPair l
  | fuel + 1, l =>
    match fontSrcPair l with
    | none => none
    | some n =>
      match fontSrcPairs fuel (l.drop n) with
      | some m => some (n + m)
      | none => some n

/-- A match of `FONT_SRC_REGEX`
`/src:\s*(?:url\([^)]+\)\s*format\([^)]+\)[,;]\s*)+/g` at the current
position. -/
def fontSrcMatch (l : List Char) : Option ℕ :=
  if "src:".toList.isPrefixOf l then
    let l1 := l.drop 4
    let s := (l1.takeWhile jsSpace).length
    (fontSrcPairs l1.length (l1.drop s)).map (fun n => 4 + s + n)
  else none

/-- The quoted branch of `format\((["']?)([^"']+)\1\)`: the opening quote,
a greedy non-quote run, the matching quote (the backreference), and the
closing parenthesis.  Returns consumed length from the quote on, plus the
captured format. -/
def formatQuoted (l4 : List Char) : Option (ℕ × List Char) :=
  match l4 with
  | q :: l5 =>
    if q = '"' ∨ q = singleQuote then
      let run := l5.takeWhile (fun c => decide (c ≠ '"' ∧ c ≠ singleQuote))
      if run.length = 0 then none
      else
        match l5.drop run.length with
        | q2 :: ')' :: _ => if q2 = q then some (1 + run.length + 1 + 1, run) else none
        | _ => none
    else none
  | [] => none

/-- The unquoted branch (empty optional quote, empty backreference): the
greedy non-quote run backtracks until the next character is `)`, i.e. the
capture ends just before the last `)` inside the run; it must be
non-empty. -/
def formatUnquoted (l4 : List Char) : Option (ℕ × List Char) :=
  let run := l4.takeWhile (fun c => decide (c ≠ '"' ∧ c ≠ singleQuote))
  let afterOne := run.drop 1
  if afterOne.contains ')' then
    let t := (afterOne.reverse.takeWhile (fun c => decide (c ≠ ')'))).length
    let j := run.length - t - 1
    some (j + 1, run.take j)
  else none

/-- A match of `URL_WITH_FORMAT_REGEX`
`/url\([^)]+\)\s*format\((["']?)([^"']+)\1\)/g` at the current position:
consumed length and the captured format. -/
def urlFormatAt (l : List Char) : Option (ℕ × List Char) :=
  if "url(".toList.isPrefixOf l then
    let l1 := l.drop 4
    let k := takeNonParen l1
    if k = 0 then none
    else
      match l1.drop k with
      | ')' :: l2 =>
        let s := (l2.takeWhile jsSpace).length
        let l3 := l2.drop s
        if "format(".toList.isPrefixOf l3 then
          let l4 := l3.drop 7
          let base := 4 + k + 1 + s + 7
          ((formatQuoted l4).orElse (fun _ => formatUnquoted l4)).map
            (fun p => (base + p.1, p.2))
        else none
      | _ => none
  else none

/-- Leftmost match with capture, as `regexFind` but for matchers carrying a
capture. -/
def regexFindCapture (m : List Char → Option (ℕ × List Char)) :
    List Char → Option (ℕ × ℕ × List Char)
  | [] =>
    match m [] with
    | some (n, cap) => some (0, n, cap)
    | none => none
  | c :: r =>
    match m (c :: r) with
    | some (n, cap) => some (0, n, cap)
    | none => (regexFindCapture m r).map (fun p => (p.1 + 1, p.2.1, p.2.2))

/-- JS `URL_WITH_FORMAT_REGEX.exec(s)` with the persistent `lastIndex`:
search for the first match starting at or after `lastIndex`; on success
return the full match, the format capture and the advanced `lastIndex`; on
failure return `none` (the caller observes the reset `lastIndex = 0`). -/
def urlFormatExec (lastIndex : ℕ) (s : List Char) :
    Option (List Char × List Char × ℕ) :=
  if lastIndex > s.length then none
  else
    match regexFindCapture urlFormatAt (s.drop lastIndex) with
    | some (off, n, cap) =>
      some ((s.drop (lastIndex + off)).take n, cap, lastIndex + off + n)
    | none => none

/-- The `while (true)` callback of `filterPreferredFontFormat`: repeated
`exec` over the matched declaration; the first alternative whose format
equals the preference is rebuilt as `src: <match>;`; exhaustion yields the
empty replacement and resets `lastIndex` to 0. -/
def fontSrcCallback : ℕ → ℕ → List Char → String → List Char × ℕ
  | 0, _, _, _ => ([], 0)
  | fuel + 1, lastIndex, m, pref =>
    match urlFormatExec lastIndex m with
    | none => ([], 0)
    | some (src, fmt, lastIndex') =>
      if String.mk fmt = pref then ("src: ".toList ++ src ++ [';'], lastIndex')
      else fontSrcCallback fuel lastIndex' m pref

/-- The global replace over `FONT_SRC_REGEX`, threading the persistent
`lastIndex` of `URL_WITH_FORMAT_REGEX` through the callbacks. -/
def fontSrcReplace : ℕ → ℕ → List Char → String → List Char × ℕ
  | 0, lastIndex, l, _ => (l, lastIndex)
  | fuel + 1, lastIndex, l, pref =>
    match regexFind fontSrcMatch l with
    | none => (l, lastIndex)
    | some (s, n) =>
      let m := (l.drop s).take n
      let rep := fontSrcCallback (m.length + 1) lastIndex m pref
      let tail := fontSrcReplace fuel rep.2 (l.drop (s + n)) pref
      (l.take s ++ rep.1 ++ tail.1, tail.2)

/-- JS `filterPreferredFontFormat(str, { preferredFontFormat })`: the
identity (regex state untouched) when no preference is configured,
otherwise the stateful rewrite above.  The first component of the state
pair is the persistent `lastIndex` of `URL_WITH_FORMAT_REGEX` before and
after the call. -/
def filterPreferredFontFormat (lastIndex : ℕ) (str : String)
    (preferredFontFormat : Option String) : String × ℕ :=
  if jsTruthyStr preferredFontFormat then
    let pref := preferredFontFormat.getD ""
    let r := fontSrcReplace (str.length + 1) lastIndex str.toList pref
    (String.mk r.1, r.2)
  else (str, lastIndex)

/-! ## Claim-side comparison definitions and proof helpers -/

/-- Modelled from claim C4's words: the font-like URLs are those "whose
extension marks them as font-like (ttf, otf, eot, woff, woff2)"; the
extension is read with the repository's own extension extractor, the
filename is the text after the last slash, and the remaining steps follow
the claim verbatim. -/
def claimKeyC4 (url : String) (contentType : Option String)
    (includeQueryParams : Bool) : String :=
  let key := if includeQueryParams then url.toList else stripQuery url.toList
  let ext := (getExtension (String.mk key)).toList.map Char.toLower
  let fontLike :=
    (["ttf", "otf", "eot", "woff", "woff2"].map String.toList).contains ext
  let key := if fontLike then (key.reverse.takeWhile (fun c => decide (c ≠ '/'))).reverse
    else key
  if jsTruthyStr contentType then
    "[" ++ contentType.getD "" ++ "]" ++ String.mk key
  else String.mk key

/-- The amended C4 key derivation: as the claim, except that font-likeness
is a case-insensitive substring test for ttf/otf/eot/woff anywhere in the
(query-handled) key, query stripping takes the text before the first `?`,
and the filename is the text after the last `/`. -/
def amendedKeyC4 (url : String) (contentType : Option String)
    (includeQueryParams : Bool) : String :=
  let key := if includeQueryParams then url.toList
    else url.toList.takeWhile (fun c => decide (c ≠ '?'))
  let key := if fontKeyTest key then
      (key.reverse.takeWhile (fun c => decide (c ≠ '/'))).reverse
    else key
  if jsTruthyStr contentType then
    "[" ++ contentType.getD "" ++ "]" ++ String.mk key
  else String.mk key

/-- A pseudo position that generates nothing: resolved `content` empty or
`none`. -/
def pseudoSilent (s : StyleDecl) : Bool :=
  getPropertyValue s "content" == "" || getPropertyValue s "content" == "none"

/-- Acceptance of a non-root node by the configured filter. -/
def acceptsChild (opts : CloneOptions) (n : VNode) : Bool :=
  !(rejectsNode opts false n)

mutual

/-- A plain subtree: generic elements only (no canvas/video/iframe/form
kinds), no `use` tags, no shadow root, no assigned nodes, no content
document, and silent pseudo positions, hereditarily. -/
def isSimpleNode : VNode → Bool
  | .mk d cs sh a cb =>
    (d.kind == NKind.element) && (d.tag != "use") && sh.isNone && a.isNone &&
      cb.isNone && pseudoSilent d.pseudoBefore && pseudoSilent d.pseudoAfter &&
      isSimpleForest cs

/-- `isSimpleNode` over a list. -/
def isSimpleForest : List VNode → Bool
  | [] => true
  | c :: rest => isSimpleNode c && isSimpleForest rest

end

/-- The decoration `decorate` performs on the clone of a plain element:
only the style application changes. -/
def decorData (d : NodeData) : NodeData :=
  { d with styleApplied :=
      if d.styleSrc.cssText ≠ "" then
        AppliedStyle.wholesale d.styleSrc.cssText d.styleSrc.transformOrig
      else
        AppliedStyle.perProp (d.styleSrc.props.map (adjustStyleProp false d.dAttr)) }

mutual

/-- The clone `cloneNode` produces for a plain subtree: decorated data and
the in-order filtered clones of the children. -/
def simpleClone (opts : CloneOptions) : VNode → VNode
  | .mk d cs _ _ _ => .mk (decorData d) (simpleCloneList opts cs) none none none

/-- The child list of such a clone. -/
def simpleCloneList (opts : CloneOptions) : List VNode → List VNode
  | [] => []
  | c :: rest =>
    (if acceptsChild opts c then [simpleClone opts c] else []) ++
      simpleCloneList opts rest

end

/-- Numeric value of a decimal digit character. -/
def decVal (c : Char) : ℕ := c.toNat - 48

/-- Decimal evaluation of a digit string, most significant digit first. -/
def evalDec (l : List Char) : ℕ := l.foldl (fun a c => 10 * a + decVal c) 0

/-- A conversion environment fixture for concrete witnesses. -/
def fixtureEnv (f : Option (VNode → Bool)) : CloneEnv :=
  { opts := { filter := f }, fetchOracle := fun _ => .failure "offline",
    uuidRandom := fun _ => 0, docDefs := [] }

/-- A fresh process state fixture. -/
def fixtureState : CloneState := { counter := 0, cache := [] }

/-- A plain element node fixture. -/
def plainEl (tag : String) (children : List VNode) : VNode :=
  .mk (mkNodeData tag .element) children none none none

/-- Fixture: an element whose computed style carries the fractional pixel
font size 15.5px on the per-property path. -/
def fontNode155 : VNode :=
  VNode.mk { mkNodeData "span" .element with styleSrc := { cssText := "", transformOrig := "", props := [⟨"font-size", CSSVal.px (31/2 : ℚ), ""⟩] } } [] none none none

/-- Fixture: the same with the integral pixel font size 12px. -/
def fontNode12 : VNode :=
  VNode.mk { mkNodeData "span" .element with styleSrc := { cssText := "", transformOrig := "", props := [⟨"font-size", CSSVal.px (12 : ℚ), ""⟩] } } [] none none none

/-- Fixture: a resolved pseudo style whose host exposes no serialized
cssText; the resolved content value contains both quote characters. -/
def pseudoDeclPlain : StyleDecl := ⟨"", [⟨"content", "\x22it\x27s\x22", ""⟩]⟩

/-- Fixture: the same resolved pseudo style with a serialized cssText. -/
def pseudoDeclSer : StyleDecl := ⟨"content: \x22it\x27s\x22;", [⟨"content", "\x22it\x27s\x22", ""⟩]⟩

/-- Fixture: a filter predicate that rejects exactly the `b` elements. -/
def fC5filter : VNode → Bool := fun n => n.data.tag != "b"

/-! # Theorems settling the claims -/

/-- Claim C6: applying the style-sheet rule extractor (`parseCSS`) to the
exact text `@keyframes spin{0%{opacity:0}100%{opacity:1}} .a{color:red}`
yields exactly two fragments, the keyframes block
`@keyframes spin{0%{opacity:0}100%{opacity:1}}` first and the `.a` rule
second, matching source order. -/
theorem claim_C6_parseCSS_two_fragments :
    parseCSS (some "@keyframes spin\x7b0%\x7bopacity:0\x7d100%\x7bopacity:1\x7d\x7d .a\x7bcolor:red\x7d") =
      ["@keyframes spin\x7b0%\x7bopacity:0\x7d100%\x7bopacity:1\x7d\x7d",
       " .a\x7bcolor:red\x7d"] := by
  rfl

/-- Claim C1, code-bug evidence: with `fontEmbedCSS` absent (`undefined`,
the default when the caller passes no option) and `skipFonts` unset, the
strict `!== null` test selects the `undefined` value itself, so the stage
inserts nothing and never consults the web-font discovery result — even
when that result is non-empty.  Discovery is reached only when
`fontEmbedCSS` is exactly `null`, in which case the style node is inserted
first as the claim describes. -/
theorem claim_C1_embedWebFonts_undefined_skips_discovery :
    embedWebFontsCssText { fontEmbedCSS := .undef, skipFonts := false }
        "@font-face\x7bfont-family:F;src:url(data:x)\x7d" = .undef ∧
    embedWebFonts (plainEl "div" [plainEl "p" []])
        { fontEmbedCSS := .undef, skipFonts := false }
        "@font-face\x7bfont-family:F;src:url(data:x)\x7d" =
      plainEl "div" [plainEl "p" []] ∧
    embedWebFontsCssText { fontEmbedCSS := .null, skipFonts := false }
        "@font-face\x7bfont-family:F;src:url(data:x)\x7d" =
      .str "@font-face\x7bfont-family:F;src:url(data:x)\x7d" ∧
    embedWebFonts (plainEl "div" [plainEl "p" []])
        { fontEmbedCSS := .null, skipFonts := false }
        "@font-face\x7bfont-family:F;src:url(data:x)\x7d" =
      VNode.mk (mkNodeData "div" .element)
        [styleElementNode "@font-face\x7bfont-family:F;src:url(data:x)\x7d",
         plainEl "p" []] none none none :=
  ⟨rfl, rfl, rfl, rfl⟩

/-- Claim C2: on a cache miss, a failed fetch never propagates: the result
is the configured `imagePlaceholder` (or the empty string when none is
configured), and that same fallback is stored in the cache under the
computed cache key. -/
theorem claim_C2_resourceToDataURL_failure_degrades
    (cache : List (String × String)) (url : String) (contentType : Option String)
    (options : DataUrlOptions) (message : String)
    (hmiss : cache.lookup (getCacheKey url contentType options.includeQueryParams) = none) :
    resourceToDataURL cache url contentType options (.failure message) =
      (options.imagePlaceholder.getD "",
       (getCacheKey url contentType options.includeQueryParams,
        options.imagePlaceholder.getD "") :: cache) := by
  simp only [resourceToDataURL, hmiss]

/-- Witness for claim C2 at a concrete input. -/
theorem claim_C2_witness :
    ([] : List (String × String)).lookup (getCacheKey "https://x/a.png" none false) = none ∧
    resourceToDataURL [] "https://x/a.png" none {} (.failure "404") =
      (({} : DataUrlOptions).imagePlaceholder.getD "",
       (getCacheKey "https://x/a.png" none false,
        ({} : DataUrlOptions).imagePlaceholder.getD "") :: []) :=
  ⟨rfl, claim_C2_resourceToDataURL_failure_degrades [] "https://x/a.png" none {} "404" rfl⟩

/-- Claim C3: a second call whose arguments derive the same cache key as a
completed earlier call returns exactly the first call's result and leaves
the cache unchanged, for every fetch outcome of the second call — i.e. the
second call never consults the network. -/
theorem claim_C3_resourceToDataURL_cache_dedup
    (cache : List (String × String)) (u₁ : String) (ct₁ : Option String)
    (o₁ : DataUrlOptions) (f₁ : FetchOutcome) (u₂ : String) (ct₂ : Option String)
    (o₂ : DataUrlOptions) (f₂ : FetchOutcome)
    (hkey : getCacheKey u₂ ct₂ o₂.includeQueryParams =
      getCacheKey u₁ ct₁ o₁.includeQueryParams) :
    resourceToDataURL (resourceToDataURL cache u₁ ct₁ o₁ f₁).2 u₂ ct₂ o₂ f₂ =
      ((resourceToDataURL cache u₁ ct₁ o₁ f₁).1,
       (resourceToDataURL cache u₁ ct₁ o₁ f₁).2) := by
  cases hl : cache.lookup (getCacheKey u₁ ct₁ o₁.includeQueryParams) with
  | some v =>
    simp only [resourceToDataURL, hl, hkey]
  | none =>
    cases f₁ with
    | success r h =>
      simp only [resourceToDataURL, hl, hkey, List.lookup, beq_self_eq_true]
    | failure m =>
      simp only [resourceToDataURL, hl, hkey, List.lookup, beq_self_eq_true]

/-- Witness for claim C3 at a concrete input: two references to the same
image URL, the second with a different fetch outcome, get the identical
inline encoding. -/
theorem claim_C3_witness :
    getCacheKey "https://x/a.png?v=2" none false = getCacheKey "https://x/a.png" none false ∧
    resourceToDataURL
        (resourceToDataURL [] "https://x/a.png" none {}
          (.success "data:image/png;base64,AAA" (some "image/png"))).2
        "https://x/a.png?v=2" none {} (.failure "offline") =
      ((resourceToDataURL [] "https://x/a.png" none {}
          (.success "data:image/png;base64,AAA" (some "image/png"))).1,
       (resourceToDataURL [] "https://x/a.png" none {}
          (.success "data:image/png;base64,AAA" (some "image/png"))).2) :=
  ⟨rfl, claim_C3_resourceToDataURL_cache_dedup [] "https://x/a.png" none {}
    (.success "data:image/png;base64,AAA" (some "image/png"))
    "https://x/a.png?v=2" none {} (.failure "offline") rfl⟩

/-- Claim C4, counterexample: the code detects font-likeness with the
substring regex `/ttf|otf|eot|woff2?/i`, not by extension.  The URL
`https://x.com/notfont/pic.png` has extension `png`, yet the path segment
`notfont` contains `otf`, so the code reduces the key to the filename while
the claim's extension-based derivation keeps the whole URL. -/
theorem claim_C4_cex :
    getCacheKey "https://x.com/notfont/pic.png" none false = "pic.png" ∧
    claimKeyC4 "https://x.com/notfont/pic.png" none false = "https://x.com/notfont/pic.png" ∧
    getCacheKey "https://x.com/notfont/pic.png" none false ≠
      claimKeyC4 "https://x.com/notfont/pic.png" none false := by
  refine ⟨rfl, rfl, ?_⟩
  intro h
  rw [show getCacheKey "https://x.com/notfont/pic.png" none false = "pic.png" from rfl,
    show claimKeyC4 "https://x.com/notfont/pic.png" none false =
      "https://x.com/notfont/pic.png" from rfl] at h
  exact absurd h (by decide)

/-- Helper: dropping to the newline of a newline-free text drops
everything. -/
theorem dropToNewline_eq_nil (l : List Char) (h : '\n' ∉ l) :
    dropToNewline l = [] := by
  induction l with
  | nil => rfl
  | cons c r ih =>
    have hc : ¬ c = '\n' := fun hcc => h (by simp [hcc])
    simp only [dropToNewline, if_neg hc]
    exact ih (fun hm => h (List.mem_cons_of_mem c hm))

/-- Helper: on newline-free text, query stripping is a prefix take. -/
theorem stripQuery_of_no_newline (l : List Char) (h : '\n' ∉ l) :
    stripQuery l = l.takeWhile (fun c => decide (c ≠ '?')) := by
  induction l with
  | nil => rfl
  | cons c r ih =>
    have hr : '\n' ∉ r := fun hm => h (List.mem_cons_of_mem c hm)
    by_cases hq : c = '?'
    · subst hq
      simp only [stripQuery, if_pos rfl, List.takeWhile_cons]
      simp [dropToNewline_eq_nil r hr]
    · simp only [stripQuery, if_neg hq, List.takeWhile_cons]
      simp [hq, ih hr]

/-- Helper: the line split of a newline-free text is trivial. -/
theorem breakLine_of_no_newline (l : List Char) (h : '\n' ∉ l) :
    breakLine l = (l, []) := by
  induction l with
  | nil => rfl
  | cons c r ih =>
    have hc : ¬ c = '\n' := fun hcc => h (by simp [hcc])
    have hr : '\n' ∉ r := fun hm => h (List.mem_cons_of_mem c hm)
    simp [breakLine, hc, ih hr]

/-- Helper: taking after the last slash of a slash-free text is the
identity. -/
theorem afterLastSlash_of_not_mem (l : List Char) (h : '/' ∉ l) :
    afterLastSlash l = l := by
  unfold afterLastSlash
  have : l.reverse.takeWhile (fun c => decide (c ≠ '/')) = l.reverse := by
    apply List.takeWhile_eq_self_iff.mpr
    intro a ha
    simp only [decide_eq_true_eq]
    intro hcc
    exact h (by simpa [hcc] using (List.mem_reverse).mp ha)
  rw [this, List.reverse_reverse]

/-- Helper: on newline-free text, the `.*\/` replace takes the text after
the last slash (or is the identity without a slash). -/
theorem dropThroughSlash_of_no_newline (l : List Char) (h : '\n' ∉ l) :
    dropThroughSlash l = if '/' ∈ l then afterLastSlash l else l := by
  induction l with
  | nil => rfl
  | cons c r ih =>
    have hc : ¬ c = '\n' := fun hcc => h (by simp [hcc])
    have hr : '\n' ∉ r := fun hm => h (List.mem_cons_of_mem c hm)
    have hbl : breakLine (c :: r) = (c :: r, []) := breakLine_of_no_newline _ h
    by_cases hs : '/' ∈ (c :: r)
    · have hcont : (c :: r).contains '/' = true := by simpa using hs
      simp only [dropThroughSlash, if_neg hc, hbl, hcont, if_pos rfl, List.append_nil,
        if_pos hs]
      simp
    · have hcont : (c :: r).contains '/' = false := by simpa using hs
      have hsr : '/' ∉ r := fun hm => hs (List.mem_cons_of_mem c hm)
      simp only [dropThroughSlash, if_neg hc, hbl, hcont, Bool.false_eq_true,
        if_false, if_neg hs]
      rw [ih hr, if_neg hsr]

/-- Helper: the font-branch rewrite of the key agrees with the plain
after-last-slash formulation on newline-free keys. -/
theorem fontBranch_eq_of_no_newline (k : List Char) (h : '\n' ∉ k) :
    (if fontKeyTest k then dropThroughSlash k else k) =
      (if fontKeyTest k then (k.reverse.takeWhile (fun c => decide (c ≠ '/'))).reverse
       else k) := by
  by_cases hf : fontKeyTest k
  · simp only [if_pos hf]
    rw [dropThroughSlash_of_no_newline k h]
    by_cases hs : '/' ∈ k
    · rw [if_pos hs]
      rfl
    · rw [if_neg hs]
      have := afterLastSlash_of_not_mem k hs
      unfold afterLastSlash at this
      exact this.symm
  · simp only [if_neg hf]

/-- Claim C4, amended: the cache key derivation is — the URL with the text
from the first `?` on removed, unless `includeQueryParams` keeps the full
URL; a key containing ttf/otf/eot/woff as a case-insensitive substring
anywhere is reduced to the text after its last slash; and a truthy content
type is prefixed in brackets.  (Stated for URLs without embedded newlines,
where the regex line semantics is invisible.) -/
theorem claim_C4_amended (url : String) (ct : Option String) (iqp : Bool)
    (hnl : '\n' ∉ url.toList) :
    getCacheKey url ct iqp = amendedKeyC4 url ct iqp := by
  cases iqp with
  | true =>
    simp only [getCacheKey, amendedKeyC4, if_pos rfl, if_true]
    rw [fontBranch_eq_of_no_newline url.toList hnl]
  | false =>
    simp only [getCacheKey, amendedKeyC4, Bool.false_eq_true, if_false]
    have hsq := stripQuery_of_no_newline url.toList hnl
    have hknl : '\n' ∉ stripQuery url.toList := by
      rw [hsq]
      intro hm
      exact hnl ((List.takeWhile_sublist _).subset hm)
    rw [fontBranch_eq_of_no_newline _ hknl, hsq]

/-- Witness for the amended claim C4 at a concrete input. -/
theorem claim_C4_amended_witness :
    '\n' ∉ ("https://a.com/f/b.TTF?v=1").toList ∧
    getCacheKey "https://a.com/f/b.TTF?v=1" (some "font/ttf") false =
      amendedKeyC4 "https://a.com/f/b.TTF?v=1" (some "font/ttf") false :=
  ⟨by decide, claim_C4_amended "https://a.com/f/b.TTF?v=1" (some "font/ttf") false (by decide)⟩

/-- Claim C9, counterexample: the per-property path first floors a pixel
font size and then subtracts 0.1.  For the resolved value 15.5px the code
applies 14.9px, not the claim's 15.4px. -/
theorem claim_C9_cex :
    (cloneCSSStyle fontNode155 (shallowCloneNode fontNode155)).data.styleApplied =
      AppliedStyle.perProp [⟨"font-size", CSSVal.px (149/10 : ℚ), ""⟩] ∧
    (149/10 : ℚ) ≠ (31/2 : ℚ) - 1/10 := by
  constructor
  · with_unfolding_all rfl
  · norm_num

/-- Claim C9, amended: on the per-property path (empty serialized
`cssText`), every property is copied through `adjustStyleProp`, and a pixel
font size `v` comes out as `⌊v⌋ - 0.1` pixels (the subtraction happens
after flooring), independent of the other two adjustments. -/
theorem claim_C9_amended (native clone : VNode)
    (hcss : native.data.styleSrc.cssText = "")
    (helem : isElementKind clone.data.kind = true) :
    cloneCSSStyle native clone =
      clone.setData { clone.data with styleApplied := AppliedStyle.perProp (native.data.styleSrc.props.map (adjustStyleProp (native.data.kind = .iframe) clone.data.dAttr)) } ∧
    ∀ (q : ℚ) (pr : String) (isIfr : Bool) (dA : Option String),
      adjustStyleProp isIfr dA ⟨"font-size", CSSVal.px q, pr⟩ =
        ⟨"font-size", CSSVal.px ((⌊q⌋ : ℚ) - 1/10), pr⟩ := by
  constructor
  · simp only [cloneCSSStyle, helem, if_pos rfl, hcss]
    simp
  · intro q pr isIfr dA
    have h1 : ("font-size" : String) ≠ "d" := by decide
    have h2 : ("font-size" : String) ≠ "display" := by decide
    simp [adjustStyleProp, h1, h2]

/-- Witness for the amended claim C9 at a concrete input. -/
theorem claim_C9_amended_witness :
    fontNode12.data.styleSrc.cssText = "" ∧
    isElementKind (plainEl "div" []).data.kind = true ∧
    (cloneCSSStyle fontNode12 (plainEl "div" []) =
      (plainEl "div" []).setData { (plainEl "div" []).data with styleApplied := AppliedStyle.perProp (fontNode12.data.styleSrc.props.map (adjustStyleProp (fontNode12.data.kind = .iframe) (plainEl "div" []).data.dAttr)) } ∧
    ∀ (q : ℚ) (pr : String) (isIfr : Bool) (dA : Option String),
      adjustStyleProp isIfr dA ⟨"font-size", CSSVal.px q, pr⟩ =
        ⟨"font-size", CSSVal.px ((⌊q⌋ : ℚ) - 1/10), pr⟩) :=
  ⟨rfl, rfl, claim_C9_amended fontNode12 (plainEl "div" []) rfl rfl⟩

/-- Claim C8, counterexample: when the host exposes no serialized
`cssText` for the pseudo style, the generated rule is built by
`formatCSSProperties`, which re-emits the resolved `content` value
verbatim — quotes included.  For the resolved content value `"it's"` the
generated rule contains both quote characters of the original value,
contradicting the claim that every quote character is stripped. -/
theorem claim_C8_cex :
    clonePseudoElement (fun _ => 0) 0 pseudoDeclPlain ":before" (plainEl "div" []) =
      (VNode.mk { mkNodeData "div" .element with className := " u00001" } [styleElementNode ".u00001::before\x7bcontent: \x22it\x27s\x22;\x7d"] none none none, 1) ∧
    (".u00001::before\x7bcontent: \x22it\x27s\x22;\x7d").toList.contains '"' = true ∧
    (".u00001::before\x7bcontent: \x22it\x27s\x22;\x7d").toList.contains singleQuote = true := by
  refine ⟨by with_unfolding_all rfl, rfl, rfl⟩

/-- Claim C8, amended: when the resolved pseudo style carries a non-empty
serialized `cssText`, the generated rule appends a `content` declaration
whose value has every apostrophe and double quote removed and is re-wrapped
in apostrophes (so the re-quoted literal contains no quote character of the
original value); when `cssText` is empty, the properties — `content`
included — are re-emitted verbatim. -/
theorem claim_C8_amended (pseudoStyle : StyleDecl) (pseudo : String) (clone : VNode)
    (randomAt : ℕ → ℕ) (counter : ℕ)
    (hcontent : ¬(getPropertyValue pseudoStyle "content" = "" ∨
      getPropertyValue pseudoStyle "content" = "none"))
    (hcss : pseudoStyle.cssText ≠ "")
    (hw : clone.data.classNameWritable = true) :
    clonePseudoElement randomAt counter pseudoStyle pseudo clone =
      ((clone.setData { clone.data with className := clone.data.className ++ " " ++ uuidResult randomAt (counter + 1) }).appendChild
        (styleElementNode
          ("." ++ uuidResult randomAt (counter + 1) ++ ":" ++ pseudo ++ "\x7b" ++
            (pseudoStyle.cssText ++ " content: " ++ String.singleton singleQuote ++
              stripQuotes (getPropertyValue pseudoStyle "content") ++
              String.singleton singleQuote ++ ";") ++ "\x7d")),
       counter + 1) ∧
    (stripQuotes (getPropertyValue pseudoStyle "content")).toList.contains '"' = false ∧
    (stripQuotes (getPropertyValue pseudoStyle "content")).toList.contains singleQuote
      = false := by
  refine ⟨?_, ?_, ?_⟩
  · simp only [clonePseudoElement, if_neg hcontent, hw, if_pos rfl,
      getPseudoElementStyle, formatCSSText, if_pos hcss, if_true]
  · simp only [stripQuotes, String.toList]
    simp only [List.contains_eq_any_beq, List.any_eq_false]
    intro c hc
    have hcq := (List.mem_filter.mp hc).2
    simp only [decide_eq_true_eq] at hcq
    simp only [beq_iff_eq]
    exact fun hq => hcq.1 hq.symm
  · simp only [stripQuotes, String.toList]
    simp only [List.contains_eq_any_beq, List.any_eq_false]
    intro c hc
    have hcq := (List.mem_filter.mp hc).2
    simp only [decide_eq_true_eq] at hcq
    simp only [beq_iff_eq]
    exact fun hq => hcq.2 hq.symm

/-- Witness for the amended claim C8 at a concrete input. -/
theorem claim_C8_amended_witness :
    ¬(getPropertyValue pseudoDeclSer "content" = "" ∨
      getPropertyValue pseudoDeclSer "content" = "none") ∧
    pseudoDeclSer.cssText ≠ "" ∧
    (plainEl "div" []).data.classNameWritable = true ∧
    (clonePseudoElement (fun _ => 0) 0 pseudoDeclSer ":after" (plainEl "div" []) =
      (((plainEl "div" []).setData { (plainEl "div" []).data with className := (plainEl "div" []).data.className ++ " " ++ uuidResult (fun _ => 0) 1 }).appendChild
        (styleElementNode
          ("." ++ uuidResult (fun _ => 0) 1 ++ ":" ++ ":after" ++ "\x7b" ++
            (pseudoDeclSer.cssText ++ " content: " ++ String.singleton singleQuote ++
              stripQuotes (getPropertyValue pseudoDeclSer "content") ++
              String.singleton singleQuote ++ ";") ++ "\x7d")),
       1) ∧
    (stripQuotes (getPropertyValue pseudoDeclSer "content")).toList.contains '"' = false ∧
    (stripQuotes (getPropertyValue pseudoDeclSer "content")).toList.contains singleQuote
      = false) :=
  ⟨by decide, by decide, rfl,
    claim_C8_amended pseudoDeclSer ":after" (plainEl "div" []) (fun _ => 0) 0
      (by decide) (by decide) rfl⟩

/-- Claim C7, counterexample: `URL_WITH_FORMAT_REGEX` is module level and
its `lastIndex` persists across the callback invocations, so in a text with
two src declarations the second is scanned from the offset left by the
first and is dropped even though it contains an alternative whose format
equals the preference — contradicting the claim's universal rewrite. -/
theorem claim_C7_cex :
    containsSeq "url(b.woff2) format(\x22woff2\x22)".toList
      ("src: url(a.woff2) format(\x22woff2\x22); src: url(b.woff2) format(\x22woff2\x22);").toList
      = true ∧
    (filterPreferredFontFormat 0
      "src: url(a.woff2) format(\x22woff2\x22); src: url(b.woff2) format(\x22woff2\x22);"
      (some "woff2")).1 = "src: url(a.woff2) format(\x22woff2\x22);" ∧
    containsSeq "b.woff2".toList
      ((filterPreferredFontFormat 0
        "src: url(a.woff2) format(\x22woff2\x22); src: url(b.woff2) format(\x22woff2\x22);"
        (some "woff2")).1).toList = false := by
  refine ⟨rfl, rfl, rfl⟩

/-- Claim C7, amended: with no configured preference the text and the
scanner state are returned unchanged, for every text and state.  With a
preference, rewriting runs through the module-level regex's persistent
`lastIndex`: with fresh state, a single src declaration is rewritten to
`src: <first url(...) format(...) alternative whose format matches>;` — in
particular the claim's scenario holds — and is dropped entirely when no
alternative matches from the current offset; with stale state even a
matching declaration can be dropped (see the counterexample). -/
theorem claim_C7_amended :
    (∀ (lastIndex : ℕ) (s : String),
      filterPreferredFontFormat lastIndex s none = (s, lastIndex)) ∧
    filterPreferredFontFormat 0
      "src: url(a.woff2) format(\x22woff2\x22), url(a.ttf) format(\x22truetype\x22);"
      (some "woff2") = ("src: url(a.woff2) format(\x22woff2\x22);", 33) ∧
    filterPreferredFontFormat 0
      "src: url(a.woff2) format(\x22woff2\x22), url(a.ttf) format(\x22truetype\x22);"
      (some "woff") = ("", 0) ∧
    filterPreferredFontFormat 33
      "src: url(b.woff2) format(\x22woff2\x22);" (some "woff2") = ("", 0) :=
  ⟨fun _ _ => rfl, rfl, rfl, rfl⟩

/-- Helper: `pad4` always yields exactly four characters. -/
theorem pad4_length (n : ℕ) : (pad4 n).length = 4 := by
  simp only [pad4, List.length_drop, List.length_cons]
  omega

/-- Helper: `getD` stays inside the list when the default is a member. -/
theorem getD_mem {l : List Char} {d : Char} (hd : d ∈ l) (n : ℕ) :
    l.getD n d ∈ l := by
  rcases h : l[n]? with _ | x
  · simpa [List.getD, h] using hd
  · have hx : x ∈ l := List.getElem?_mem h
    simpa [List.getD, h] using hx

/-- Helper: base-36 digit characters come from the digit table. -/
theorem b36Char_mem (n : ℕ) : b36Char n ∈ b36Digits := getD_mem (by decide) n

/-- Helper: every character of a base-36 representation is a base-36
digit. -/
theorem rep36_mem : ∀ n : ℕ, ∀ c ∈ rep36 n, c ∈ b36Digits := by
  intro n
  induction n using Nat.strong_induction_on with
  | _ n ih =>
    rw [rep36]
    split
    · intro c hc
      rw [List.mem_singleton] at hc
      exact hc ▸ b36Char_mem n
    · intro c hc
      rcases List.mem_append.mp hc with h1 | h2
      · exact ih (n / 36) (Nat.div_lt_self (by omega) (by omega)) c h1
      · rw [List.mem_singleton] at h2
        exact h2 ▸ b36Char_mem (n % 36)

/-- Helper: every character of the padded four-digit block is a base-36
digit. -/
theorem pad4_mem (n : ℕ) : ∀ c ∈ pad4 n, c ∈ b36Digits := by
  intro c hc
  have hc' : c ∈ '0' :: '0' :: '0' :: '0' :: rep36 n := List.drop_subset _ _ hc
  simp only [List.mem_cons] at hc'
  rcases hc' with h | h | h | h | h
  · exact h ▸ (by decide)
  · exact h ▸ (by decide)
  · exact h ▸ (by decide)
  · exact h ▸ (by decide)
  · exact rep36_mem n c h

/-- Helper: decimal digit characters come from the decimal table. -/
theorem decChar_mem (n : ℕ) : decChar n ∈ decDigitsList := getD_mem (by decide) n

/-- Helper: every character of a decimal representation is a decimal
digit. -/
theorem repDec_mem : ∀ n : ℕ, ∀ c ∈ repDec n, c ∈ decDigitsList := by
  intro n
  induction n using Nat.strong_induction_on with
  | _ n ih =>
    rw [repDec]
    split
    · intro c hc
      rw [List.mem_singleton] at hc
      exact hc ▸ decChar_mem n
    · intro c hc
      rcases List.mem_append.mp hc with h1 | h2
      · exact ih (n / 10) (Nat.div_lt_self (by omega) (by omega)) c h1
      · rw [List.mem_singleton] at h2
        exact h2 ▸ decChar_mem (n % 10)

/-- Helper: digit value of a decimal digit character. -/
theorem decVal_decChar (n : ℕ) (h : n < 10) : decVal (decChar n) = n := by
  interval_cases n <;> rfl

/-- Helper: decimal evaluation of an appended digit. -/
theorem evalDec_append (xs : List Char) (c : Char) :
    evalDec (xs ++ [c]) = 10 * evalDec xs + decVal c := by
  simp [evalDec, List.foldl_append]

/-- Helper: decimal evaluation inverts the decimal representation. -/
theorem evalDec_repDec : ∀ n : ℕ, evalDec (repDec n) = n := by
  intro n
  induction n using Nat.strong_induction_on with
  | _ n ih =>
    rw [repDec]
    split
    · next h =>
      simp only [evalDec, List.foldl_cons, List.foldl_nil, Nat.mul_zero, Nat.zero_add]
      exact decVal_decChar n h
    · next h =>
      rw [evalDec_append, ih (n / 10) (Nat.div_lt_self (by omega) (by omega)),
        decVal_decChar _ (Nat.mod_lt _ (by omega))]
      omega

/-- Helper: the decimal representation is injective. -/
theorem repDec_inj {i j : ℕ} (h : repDec i = repDec j) : i = j := by
  have := congrArg evalDec h
  simpa [evalDec_repDec] using this

/-- Claim C10: distinct calls of the uuid generator give distinct strings;
each result is the letter `u`, exactly four base-36 characters, then the
decimal counter; and one call advances the counter strictly. -/
theorem claim_C10_uuid_unique (randomAt : ℕ → ℕ) (i j : ℕ) (hij : i ≠ j) :
    uuidResult randomAt i ≠ uuidResult randomAt j ∧
    (uuidResult randomAt i).toList =
      'u' :: (pad4 (randomAt i % 36 ^ 4) ++ repDec i) ∧
    (pad4 (randomAt i % 36 ^ 4)).length = 4 ∧
    (∀ c ∈ pad4 (randomAt i % 36 ^ 4), c ∈ b36Digits) ∧
    (∀ c ∈ repDec i, c ∈ decDigitsList) ∧
    (∀ counter : ℕ, uuidStep randomAt counter =
      (uuidResult randomAt (counter + 1), counter + 1) ∧ counter < counter + 1) := by
  refine ⟨?_, rfl, pad4_length _, pad4_mem _, repDec_mem i,
    fun c => ⟨rfl, Nat.lt_succ_self c⟩⟩
  intro h
  apply hij
  have hl : 'u' :: (pad4 (randomAt i % 36 ^ 4) ++ repDec i) =
      'u' :: (pad4 (randomAt j % 36 ^ 4) ++ repDec j) := by
    have := congrArg String.toList h
    simpa [uuidResult] using this
  have h2 : pad4 (randomAt i % 36 ^ 4) ++ repDec i =
      pad4 (randomAt j % 36 ^ 4) ++ repDec j := by
    injection hl
  have h3 := List.append_inj h2 (by rw [pad4_length, pad4_length])
  exact repDec_inj h3.2

/-- Witness for claim C10 at concrete inputs. -/
theorem claim_C10_witness :
    (1 : ℕ) ≠ 2 ∧
    (uuidResult (fun _ => 0) 1 ≠ uuidResult (fun _ => 0) 2 ∧
    (uuidResult (fun _ => 0) 1).toList =
      'u' :: (pad4 ((fun _ : ℕ => 0) 1 % 36 ^ 4) ++ repDec 1) ∧
    (pad4 ((fun _ : ℕ => 0) 1 % 36 ^ 4)).length = 4 ∧
    (∀ c ∈ pad4 ((fun _ : ℕ => 0) 1 % 36 ^ 4), c ∈ b36Digits) ∧
    (∀ c ∈ repDec 1, c ∈ decDigitsList) ∧
    (∀ counter : ℕ, uuidStep (fun _ => 0) counter =
      (uuidResult (fun _ => 0) (counter + 1), counter + 1) ∧ counter < counter + 1)) :=
  ⟨by decide, claim_C10_uuid_unique (fun _ => 0) 1 2 (by decide)⟩

/-- Helper: clones of a plain forest contain no `use` elements, so
`ensureSVGSymbols` leaves them untouched. -/
theorem collectUses_simpleCloneList (opts : CloneOptions) :
    ∀ (N : ℕ) (cs : List VNode), sizeOf cs ≤ N → isSimpleForest cs = true →
      collectUsesList (simpleCloneList opts cs) = [] := by
  intro N
  induction N with
  | zero =>
    intro cs hsz _
    exfalso
    cases cs <;> simp_arith at hsz
  | succ N ih =>
    intro cs hsz hf
    match cs with
    | [] => simp [simpleCloneList, collectUsesList]
    | c :: rest =>
      simp only [isSimpleForest, Bool.and_eq_true] at hf
      obtain ⟨hc, hrest⟩ := hf
      have hszrest : sizeOf rest ≤ N := by
        cases c <;> simp_arith at hsz ⊢ <;> omega
      by_cases hacc : acceptsChild opts c = true
      · obtain ⟨dc, csc, shc, ac, cbc⟩ := c
        simp only [isSimpleNode, Bool.and_eq_true, bne_iff_ne, ne_eq] at hc
        have htag : ¬ dc.tag = "use" := hc.1.1.1.1.1.1.2
        have hcsc : isSimpleForest csc = true := hc.2
        have hszcsc : sizeOf csc ≤ N := by
          simp_arith at hsz ⊢
          omega
        simp only [simpleCloneList, if_pos hacc, List.singleton_append,
          simpleClone, collectUsesList]
        rw [ih csc hszcsc hcsc, ih rest hszrest hrest]
        simp [decorData, htag]
      · simp only [simpleCloneList, if_neg hacc, List.nil_append]
        exact ih rest hszrest hrest

/-- Central lemma for C5: on a plain subtree the cloner acts exactly as
the filter gate followed by `simpleClone`, leaving the process state
untouched. -/
theorem cloneNode_simple_eq (env : CloneEnv) :
    ∀ (N : ℕ) (n : VNode), sizeOf n ≤ N → isSimpleNode n = true →
      ∀ (st : CloneState) (isRoot : Bool),
        cloneNode env st n isRoot =
          (if rejectsNode env.opts isRoot n then none else some (simpleClone env.opts n), st) := by
  intro N
  induction N with
  | zero =>
    intro n hsz _
    exfalso
    cases n
    simp_arith at hsz
  | succ N ih =>
    intro n hsz hsimple st isRoot
    obtain ⟨d, cs, sh, a, cb⟩ := n
    simp only [isSimpleNode, Bool.and_eq_true, beq_iff_eq, bne_iff_ne, ne_eq,
      Option.isNone_iff_eq_none] at hsimple
    obtain ⟨⟨⟨⟨⟨⟨⟨hkind, htag⟩, hsh⟩, ha⟩, hcb⟩, hpb⟩, hpa⟩, hforest⟩ := hsimple
    subst hsh
    subst ha
    subst hcb
    obtain ⟨dt, dk, dtx, dcn, dcw, dda, did, dxl, dva, dsa, dss, dpb, dpa, dap⟩ := d
    simp only at hkind
    subst hkind
    by_cases hrej : rejectsNode env.opts isRoot
        (VNode.mk ⟨dt, .element, dtx, dcn, dcw, dda, did, dxl, dva, dsa, dss, dpb, dpa, dap⟩
          cs none none none) = true
    · rw [cloneNode]
      simp [hrej]
    · have hrejf : rejectsNode env.opts isRoot
          (VNode.mk ⟨dt, .element, dtx, dcn, dcw, dda, did, dxl, dva, dsa, dss, dpb, dpa, dap⟩
            cs none none none) = false := by
        revert hrej
        cases rejectsNode env.opts isRoot
            (VNode.mk ⟨dt, .element, dtx, dcn, dcw, dda, did, dxl, dva, dsa, dss, dpb, dpa, dap⟩
              cs none none none) <;> simp
      have hchild : ∀ (cs' : List VNode), isSimpleForest cs' = true →
          (∀ c ∈ cs', sizeOf c ≤ N) →
          ∀ (st' : CloneState) (ad : NodeData) (acs : List VNode)
            (ash aa : Option (List VNode)) (acb : Option VNode),
            cloneList env st' cs' (VNode.mk ad acs ash aa acb) =
              (VNode.mk ad (acs ++ simpleCloneList env.opts cs') ash aa acb, st') := by
        intro cs'
        induction cs' with
        | nil =>
          intro _ _ st' ad acs ash aa acb
          rw [cloneList]
          simp [simpleCloneList]
        | cons c rest ihl =>
          intro hf hszs st' ad acs ash aa acb
          simp only [isSimpleForest, Bool.and_eq_true] at hf
          have hcN : sizeOf c ≤ N := hszs c (List.mem_cons_self c rest)
          by_cases hacc : rejectsNode env.opts false c = true
          · have hme : cloneNode env st' c false = (none, st') := by
              rw [ih c hcN hf.1 st' false, if_pos hacc]
            have haccf : acceptsChild env.opts c = false := by
              simp [acceptsChild, hacc]
            simp only [cloneList, hme]
            rw [ihl hf.2 (fun x hx => hszs x (List.mem_cons_of_mem c hx)) st' ad acs ash aa acb]
            simp [simpleCloneList, haccf]
          · have haccT : rejectsNode env.opts false c = false := by
              cases h : rejectsNode env.opts false c
              · rfl
              · exact absurd h hacc
            have hme : cloneNode env st' c false = (some (simpleClone env.opts c), st') := by
              rw [ih c hcN hf.1 st' false, if_neg (by simp [haccT])]
            have haccA : acceptsChild env.opts c = true := by
              simp [acceptsChild, haccT]
            simp only [cloneList, hme, VNode.appendChild]
            rw [ihl hf.2 (fun x hx => hszs x (List.mem_cons_of_mem c hx)) st'
              ad (acs ++ [simpleClone env.opts c]) ash aa acb]
            simp [simpleCloneList, haccA, List.append_assoc]
      rw [cloneNode]
      simp only [hrej, Bool.false_eq_true, if_false]
      rw [cloneSingleNode]
      simp only []
      rw [cloneChildren]
      have hcsrc : childSource
          (VNode.mk ⟨dt, .element, dtx, dcn, dcw, dda, did, dxl, dva, dsa, dss, dpb, dpa, dap⟩
            cs none none none) = cs := by
        simp [childSource]
      rw [hcsrc]
      simp only [VNode.data]
      have hmemN : ∀ c ∈ cs, sizeOf c ≤ N := by
        intro c hcmem
        have h1 := List.sizeOf_lt_of_mem hcmem
        simp_arith at hsz
        omega
      have hdecor : ∀ (cl : List VNode) (cnt : ℕ),
          decorate env.uuidRandom cnt
            (VNode.mk ⟨dt, .element, dtx, dcn, dcw, dda, did, dxl, dva, dsa, dss, dpb, dpa, dap⟩
              cs none none none)
            (VNode.mk ⟨dt, .element, dtx, dcn, dcw, dda, did, dxl, dva, dsa, dss, dpb, dpa, dap⟩
              cl none none none) =
          (VNode.mk
            (decorData ⟨dt, .element, dtx, dcn, dcw, dda, did, dxl, dva, dsa, dss, dpb, dpa, dap⟩)
            cl none none none, cnt) := by
        intro cl cnt
        simp only [decorate, VNode.data, isElementKind, if_pos rfl]
        simp only [cloneCSSStyle, VNode.data, isElementKind, if_pos rfl, VNode.setData]
        simp only [clonePseudoElements, VNode.data, clonePseudoElement]
        have hpb' : getPropertyValue dpb "content" = "" ∨ getPropertyValue dpb "content" = "none" := by
          simpa [pseudoSilent] using hpb
        have hpa' : getPropertyValue dpa "content" = "" ∨ getPropertyValue dpa "content" = "none" := by
          simpa [pseudoSilent] using hpa
        simp only [if_pos hpb', if_pos hpa']
        simp only [cloneInputValue, cloneSelectValue, VNode.data]
        simp [decorData]
      by_cases hcs : cs = []
      · subst hcs
        have hcond : (([] : List VNode).length = 0 ∨ isVideoKind NKind.element = true) :=
          Or.inl rfl
        rw [if_pos hcond]
        simp only [shallowCloneNode, VNode.data]
        rw [hdecor [] st.counter]
        rw [ensureSVGSymbols]
        simp only [VNode.data, VNode.children, isElementKind, if_pos rfl, collectUsesList,
          List.isEmpty_nil, if_pos rfl]
        simp [simpleClone, simpleCloneList]
      · have hlen : ¬(cs.length = 0 ∨ isVideoKind NKind.element = true) := by
          simp only [isVideoKind]
          simp [List.length_eq_zero, hcs]
        rw [if_neg hlen]
        simp only [shallowCloneNode, VNode.data]
        rw [hchild cs hforest hmemN st _ [] none none none]
        simp only [List.nil_append]
        rw [hdecor (simpleCloneList env.opts cs) st.counter]
        rw [ensureSVGSymbols]
        simp only [VNode.data, VNode.children, isElementKind, if_pos rfl]
        rw [collectUses_simpleCloneList env.opts (sizeOf cs) cs (Nat.le_refl _) hforest]
        simp [simpleClone]

/-- Claim C5: over plain subtrees, for every environment whose options carry
the filter `f`: cloning a container with children `[A, B, C]` as root, where
the filter accepts `A` and `C` but rejects `B`, yields a clone whose child
list is exactly `[clone A, clone C]` in that order with no gap; every
non-root node rejected by the filter clones to `null` (and the process
state is untouched); and the root of the conversion is cloned regardless of
the filter. -/
theorem claim_C5 (env : CloneEnv) (f : VNode → Bool)
    (hf : env.opts.filter = some f) (tag : String) (A B C : VNode)
    (hcont : isSimpleNode (plainEl tag [A, B, C]) = true)
    (hfA : f A = true) (hfB : f B = false) (hfC : f C = true) :
    (∀ st : CloneState,
      cloneNode env st (plainEl tag [A, B, C]) true =
        (some (VNode.mk (decorData (mkNodeData tag NKind.element))
          [simpleClone env.opts A, simpleClone env.opts C] none none none), st)) ∧
    (∀ (n : VNode) (st : CloneState), isSimpleNode n = true → f n = false →
      cloneNode env st n false = (none, st)) ∧
    (∀ (n : VNode) (st : CloneState), isSimpleNode n = true →
      cloneNode env st n true = (some (simpleClone env.opts n), st)) := by
  have hrejRoot : ∀ n : VNode, rejectsNode env.opts true n = false := by
    intro n
    simp [rejectsNode]
  refine ⟨?_, ?_, ?_⟩
  · intro st
    rw [cloneNode_simple_eq env (sizeOf (plainEl tag [A, B, C]))
      (plainEl tag [A, B, C]) (Nat.le_refl _) hcont st true]
    rw [hrejRoot]
    simp only [Bool.false_eq_true, if_false]
    simp [plainEl, simpleClone, simpleCloneList, acceptsChild, rejectsNode, hf,
      hfA, hfB, hfC]
  · intro n st hs hn
    rw [cloneNode_simple_eq env (sizeOf n) n (Nat.le_refl _) hs st false]
    simp [rejectsNode, hf, hn]
  · intro n st hs
    rw [cloneNode_simple_eq env (sizeOf n) n (Nat.le_refl _) hs st true]
    rw [hrejRoot]
    simp

/-- Witness for C5: on the container `div[a, b, c]` with the filter that
rejects exactly `b` tags, all hypotheses hold at the fixture environment
and the clone has exactly the clones of `a` and `c` as children. -/
theorem claim_C5_witness :
    (fixtureEnv (some fC5filter)).opts.filter = some fC5filter ∧
    isSimpleNode (plainEl "div" [plainEl "a" [], plainEl "b" [], plainEl "c" []]) = true ∧
    fC5filter (plainEl "a" []) = true ∧
    fC5filter (plainEl "b" []) = false ∧
    fC5filter (plainEl "c" []) = true ∧
    cloneNode (fixtureEnv (some fC5filter)) fixtureState
        (plainEl "div" [plainEl "a" [], plainEl "b" [], plainEl "c" []]) true =
      (some (VNode.mk (decorData (mkNodeData "div" NKind.element))
        [simpleClone (fixtureEnv (some fC5filter)).opts (plainEl "a" []),
          simpleClone (fixtureEnv (some fC5filter)).opts (plainEl "c" [])]
        none none none), fixtureState) :=
  ⟨rfl, by with_unfolding_all rfl, by with_unfolding_all rfl,
    by with_unfolding_all rfl, by with_unfolding_all rfl,
    (claim_C5 (fixtureEnv (some fC5filter)) fC5filter rfl "div"
      (plainEl "a" []) (plainEl "b" []) (plainEl "c" [])
      (by with_unfolding_all rfl) (by with_unfolding_all rfl)
      (by with_unfolding_all rfl) (by with_unfolding_all rfl)).1 fixtureState⟩

end HtmlToImage
